import Mathlib

/-!
Verification of `ikluft-tools`: the CEF railroad-diagram script
(`scripts/cef_syntax_diagrams.py`), the line shuffler
(`shuffle/python/shuffle.py`) and the calendar generator
(`scripts/jcsac_gen_cal.py`), embedded shallowly in Lean.
-/

namespace CEF

/-- The fragment of the `railroad` library's `DiagramItem` used by
`cef_syntax_diagrams.py`: terminals (plain strings), `Sequence`, `Choice`
(the default index is rendering-only), `OneOrMore` (item with an optional
repeat separator), an optional item (the `skip` flag is rendering-only)
and `Group` (the label is rendering-only). -/
inductive DiagramItem where
  | T : String → DiagramItem
  | Seq : List DiagramItem → DiagramItem
  | Ch : Nat → List DiagramItem → DiagramItem
  | OOM : DiagramItem → Option DiagramItem → DiagramItem
  | Opt : DiagramItem → Bool → DiagramItem
  | Grp : DiagramItem → String → DiagramItem

/-- The language a railroad diagram item denotes, over token strings:
a terminal matches itself; a sequence concatenates; a choice picks any
branch; `OneOrMore item sep` matches `item (sep item)*`; an optional item
matches the empty word or the item; a group is transparent. -/
inductive Matches : DiagramItem → List String → Prop where
  | t (s : String) : Matches (.T s) [s]
  | seqNil : Matches (.Seq []) []
  | seqCons {d : DiagramItem} {ds : List DiagramItem} {u v : List String} :
      Matches d u → Matches (.Seq ds) v → Matches (.Seq (d :: ds)) (u ++ v)
  | ch {i : Nat} {ds : List DiagramItem} {d : DiagramItem} {w : List String} :
      d ∈ ds → Matches d w → Matches (.Ch i ds) w
  | oomOne {d : DiagramItem} {s : Option DiagramItem} {w : List String} :
      Matches d w → Matches (.OOM d s) w
  | oomMoreNone {d : DiagramItem} {u v : List String} :
      Matches d u → Matches (.OOM d none) v → Matches (.OOM d none) (u ++ v)
  | oomMoreSome {d sep : DiagramItem} {u m v : List String} :
      Matches d u → Matches sep m → Matches (.OOM d (some sep)) v →
      Matches (.OOM d (some sep)) (u ++ m ++ v)
  | optSkip {d : DiagramItem} {b : Bool} : Matches (.Opt d b) []
  | optTake {d : DiagramItem} {b : Bool} {w : List String} :
      Matches d w → Matches (.Opt d b) w
  | grp {d : DiagramItem} {l : String} {w : List String} :
      Matches d w → Matches (.Grp d l) w

/-- Unfolded form of the `OneOrMore` language: one or more matches of the
item, with a match of the separator (when present) between consecutive
items. -/
inductive Reps (d : DiagramItem) : Option DiagramItem → List String → Prop where
  | one {s : Option DiagramItem} {w : List String} : Matches d w → Reps d s w
  | consN {u v : List String} : Matches d u → Reps d none v → Reps d none (u ++ v)
  | consS {sep : DiagramItem} {u m v : List String} :
      Matches d u → Matches sep m → Reps d (some sep) v →
      Reps d (some sep) (u ++ m ++ v)

/-! ## The concrete diagrams built by `run()` in `cef_syntax_diagrams.py`.
Each definition transcribes one assignment of the Python function; plain
Python strings inside diagram constructors are terminals. -/

def word : DiagramItem := .Ch 0 [.T "WORD", .T "INT"]

def words : DiagramItem := .OOM word none

def quantifier : DiagramItem := .Seq [.T "*", .T "INT"]

def weight : DiagramItem := .Seq [.T "^", .T "INT"]

def multipliers : DiagramItem :=
  .Opt (.Grp (.Ch 0 [.Seq [.T "quantifier", .T "weight"],
                     .Seq [.T "weight", .T "quantifier"],
                     .T "quantifier",
                     .T "weight"]) "multipliers") true

def candidate : DiagramItem := .T "words"

def tag : DiagramItem := .T "words"

def equal_list : DiagramItem := .OOM (.T "candidate") (some (.T "="))

def choice_list : DiagramItem :=
  .Grp (.Ch 0 [.OOM equal_list (some (.T ">")), .T "/EMPTY_RANKING/"])
    "candidates"

def ranking : DiagramItem := .Seq [choice_list, multipliers]

def tags : DiagramItem := .OOM (.T "tag") (some (.T ","))

def line : DiagramItem :=
  .Seq [.Opt (.Grp (.Seq [tags, .T "||"]) "tags") true, ranking]

/-- A whole railroad `Diagram` as assembled by `outsvg`: a start node
carrying the diagram type and name, the element, and an end node of the
same type. -/
structure Diagram where
  diag_type : String
  name : String
  element : DiagramItem

/-- One file write performed by `outsvg`: the SVG path
`"syndiag-cef-" + name + ".svg"` and the diagram rendered into it. -/
structure OutCall where
  path : String
  content : Diagram

/-- The Python `outsvg(element, name, is_complex)`: builds the path and
the diagram exactly as the Python function does. -/
def outsvg (element : DiagramItem) (name : String)
    (is_complex : Bool) : OutCall :=
  let diag_type := if is_complex then "complex" else "simple"
  { path := "syndiag-cef-" ++ name ++ ".svg"
    content := { diag_type := diag_type, name := name, element := element } }

/-- The file writes performed by one call of `run()`, in program order.
The parameter `_env` stands for any external input available to the
process (CEF data, stdin, files); the body never consults it because the
Python `run()` reads no input. -/
def run (_env : List String) : List OutCall :=
  [outsvg words "words" false,
   outsvg quantifier "quantifier" false,
   outsvg weight "weight" false,
   outsvg candidate "candidate" false,
   outsvg tag "tag" false,
   outsvg line "line" true]

/-! ## Separated lists -/

/-- One or more words satisfying `P`, separated by the single token
`sep`: the language `P (sep P)*`. -/
inductive SepBy (P : List String → Prop) (sep : String) : List String → Prop where
  | one {w : List String} : P w → SepBy P sep w
  | cons {u v : List String} : P u → SepBy P sep v → SepBy P sep (u ++ sep :: v)

/-! ## Spec-side grammar for the `line` production.

These definitions follow the words of the specification, not the source:
`line := [ tag_section "||" ] ranking`,
`ranking := choice_list [ multiplier ]`,
`choice_list := "/EMPTY_RANKING/" | tie_group { ">" tie_group }`,
`tie_group := name { "=" name }`, `tag_section := tag { "," tag }`,
`multiplier := quantifier [ weight ] | weight [ quantifier ]`,
at the same reference level as the diagram: a name in candidate position
is the token `"candidate"`, a tag is the token `"tag"`, and the
quantifier and weight sub-productions are the tokens `"quantifier"` and
`"weight"`. -/

def specTieGroup : List String → Prop := SepBy (fun v => v = ["candidate"]) "="

def specChoiceList (w : List String) : Prop :=
  w = ["/EMPTY_RANKING/"] ∨ SepBy specTieGroup ">" w

def specMultiplier (w : List String) : Prop :=
  w = ["quantifier", "weight"] ∨ w = ["weight", "quantifier"] ∨
    w = ["quantifier"] ∨ w = ["weight"]

def specRanking (w : List String) : Prop :=
  ∃ c m, specChoiceList c ∧ (m = [] ∨ specMultiplier m) ∧ w = c ++ m

def specTagSection : List String → Prop := SepBy (fun v => v = ["tag"]) ","

def specLine (w : List String) : Prop :=
  ∃ t r, (t = [] ∨ ∃ u, specTagSection u ∧ t = u ++ ["||"]) ∧
    specRanking r ∧ w = t ++ r

end CEF

namespace CEFCore

/-- Modelled from the spec: the `Ranking` of the data model (spec section 3) —
either the explicit empty ranking or an ordered sequence of tie groups,
each tie group an ordered collection of candidate names. No parser or
validator exists in the repository source; the spec alone defines them. -/
inductive Ranking where
  | emptyRanking : Ranking
  | groups : List (List String) → Ranking

/-- Modelled from the spec: the optional multiplier pair — quantifier and
weight, each independently present or absent. -/
structure Multiplier where
  quantifier : Option Nat
  weight : Option Nat

/-- Modelled from the spec: the `Line` AST root
`{ tags: Option TagSet, ranking: Ranking, multiplier: Multiplier }`. -/
structure Line where
  tags : Option (List String)
  ranking : Ranking
  multiplier : Multiplier

/-- Modelled from the spec: the validation error variants of the Semantic
Validator (spec section 4.3). -/
inductive ValidationError where
  | DuplicateCandidate : String → ValidationError
  | TiedSelfDuplicate : String → ValidationError
  | ZeroQuantifier : ValidationError
  | ZeroWeight : ValidationError
  | EmptyTagName : ValidationError
  deriving DecidableEq

/-- The tie groups of a ranking; the empty ranking has none. -/
def rankingGroups : Ranking → List (List String)
  | .emptyRanking => []
  | .groups gs => gs

/-- First candidate name, in scan order, that occurs in a later tie group
than the one being scanned (hence in more than one tie group). -/
def firstCrossDup : List (List String) → Option String
  | [] => none
  | g :: rest =>
    match g.find? (fun n => rest.any (fun g2 => g2.contains n)) with
    | some n => some n
    | none => firstCrossDup rest

/-- First name repeated inside a single group, in scan order. -/
def firstDupIn : List String → Option String
  | [] => none
  | n :: rest => if rest.contains n then some n else firstDupIn rest

/-- First name repeated within some single tie group. -/
def firstSelfDup (gs : List (List String)) : Option String :=
  gs.findSome? firstDupIn

/-- Modelled from the spec: the Semantic Validator `validate(line)`
(spec section 4.3), running its five checks in the stated order with the
first failure winning: cross-group duplicate candidate, within-group
duplicate, zero quantifier, zero weight, empty tag name. -/
def validate (l : Line) : Except ValidationError Unit :=
  match firstCrossDup (rankingGroups l.ranking) with
  | some n => .error (.DuplicateCandidate n)
  | none =>
    match firstSelfDup (rankingGroups l.ranking) with
    | some n => .error (.TiedSelfDuplicate n)
    | none =>
      if l.multiplier.quantifier = some 0 then .error .ZeroQuantifier
      else if l.multiplier.weight = some 0 then .error .ZeroWeight
      else if (l.tags.getD []).any (fun t => t = "") then .error .EmptyTagName
      else .ok ()

end CEFCore

namespace Shuffle

/-- Exchange the elements of `l` at positions `i` and `j` (the Python
tuple assignment `x[i], x[j] = x[j], x[i]`); out-of-range indices leave
the list unchanged (never exercised by the shuffle loop). -/
def swapL {α : Type} (l : List α) (i j : Nat) : List α :=
  if hi : i < l.length then
    if hj : j < l.length then
      (l.set i (l.get ⟨j, hj⟩)).set j (l.get ⟨i, hi⟩)
    else l
  else l

/-- The Fisher–Yates loop of `random.shuffle`:
`for i in reversed(range(1, len(x))): j = randbelow(i+1); swap x[i], x[j]`.
`rand i % (i+1)` models the random index `j` drawn in `[0, i]`. -/
def shuffleFrom {α : Type} (rand : Nat → Nat) : Nat → List α → List α
  | 0, l => l
  | i + 1, l => shuffleFrom rand i (swapL l (i + 1) (rand (i + 1) % (i + 2)))

/-- `random.shuffle(words)`: runs the swap loop from index `len - 1`
down to `1`. -/
def randomShuffle {α : Type} (rand : Nat → Nat) (l : List α) : List α :=
  shuffleFrom rand (l.length - 1) l

/-- The `shuffle.py` module body: read the lines of the input file,
shuffle them with `random.shuffle`, write them to standard output.
`rand` stands for the random source consumed by the shuffle. -/
def shuffleModule (fileLines : List String) (rand : Nat → Nat) : List String :=
  randomShuffle rand fileLines

end Shuffle

namespace JCSAC

/-- Constant `DEFAULT_TIME` of `jcsac_gen_cal.py`. -/
def DEFAULT_TIME : String := "17:00:00"

/-- Constant `STORY_DL_HOUR` of `jcsac_gen_cal.py`. -/
def STORY_DL_HOUR : Nat := 9

/-- Constant `RANKING_DL_HOUR` of `jcsac_gen_cal.py`. -/
def RANKING_DL_HOUR : Nat := 9

/-- Numeric value of a decimal digit character. -/
def digitVal (c : Char) : Nat := c.toNat - '0'.toNat

/-- Matching of `DATE_RE = ^([0-9]{4})-([0-9]{2})-([0-9]{2})$` returning
the three captured groups as numbers. -/
def parseDate (s : String) : Option (Nat × Nat × Nat) :=
  match s.toList with
  | [y1, y2, y3, y4, '-', m1, m2, '-', d1, d2] =>
    if y1.isDigit && y2.isDigit && y3.isDigit && y4.isDigit &&
        m1.isDigit && m2.isDigit && d1.isDigit && d2.isDigit then
      some (((digitVal y1 * 10 + digitVal y2) * 10 + digitVal y3) * 10 + digitVal y4,
            digitVal m1 * 10 + digitVal m2,
            digitVal d1 * 10 + digitVal d2)
    else none
  | _ => none

/-- Matching of `TIME_RE = ^([0-9]{2}):([0-9]{2}):([0-9]{2})$` returning
the three captured groups as numbers. -/
def parseTime (s : String) : Option (Nat × Nat × Nat) :=
  match s.toList with
  | [h1, h2, ':', m1, m2, ':', s1, s2] =>
    if h1.isDigit && h2.isDigit && m1.isDigit && m2.isDigit &&
        s1.isDigit && s2.isDigit then
      some (digitVal h1 * 10 + digitVal h2,
            digitVal m1 * 10 + digitVal m2,
            digitVal s1 * 10 + digitVal s2)
    else none
  | _ => none

/-- Gregorian leap-year rule used by Python's `datetime`. -/
def isLeapYear (y : Nat) : Bool :=
  y % 4 == 0 && (y % 100 != 0 || y % 400 == 0)

/-- Days in a month, as enforced by Python's `datetime` constructor. -/
def daysInMonth (y m : Nat) : Nat :=
  if m = 2 then (if isLeapYear y then 29 else 28)
  else if m = 4 ∨ m = 6 ∨ m = 9 ∨ m = 11 then 30
  else 31

/-- Days before January 1 of year `y`, counted from the epoch
0001-01-01 (CPython's `_days_before_year`). -/
def daysBeforeYear (y : Nat) : Nat :=
  365 * (y - 1) + (y - 1) / 4 - (y - 1) / 100 + (y - 1) / 400

/-- Days in year `y` preceding month `m` (CPython's
`_days_before_month`). -/
def daysBeforeMonth (y m : Nat) : Nat :=
  ((List.range' 1 (m - 1)).map (daysInMonth y)).sum

/-- `date(y, m, d).toordinal()`: proleptic Gregorian ordinal, with
0001-01-01 having ordinal 1. -/
def toordinal (y m d : Nat) : Nat :=
  daysBeforeYear y + daysBeforeMonth y m + d

/-- Range checks of Python's `datetime(year, month, day, hour, minute,
second)` constructor, which raises `ValueError` outside them. -/
def dtValid (y mo dy h mi s : Nat) : Bool :=
  1 ≤ y && y ≤ 9999 && 1 ≤ mo && mo ≤ 12 && 1 ≤ dy &&
    dy ≤ daysInMonth y mo && h ≤ 23 && mi ≤ 59 && s ≤ 59

/-- The timestamps (seconds on a fixed-offset timeline: ordinal day times
86400 plus seconds within the day) of the four datetimes computed by
`run()`: story submission deadline, ranking deadline, chat start and chat
end. All four share one timezone, so their order equals the order of
these wall-clock timestamps. -/
structure Events where
  story_dl : Nat
  ranking_dl : Nat
  chat_start : Nat
  chat_end : Nat

/-- The `run()` of `jcsac_gen_cal.py`, reduced to the date computations:
with fewer than two argv entries it prints usage and returns 1 (`none`);
a date not matching `DATE_RE` or a time not matching `TIME_RE` raises
(`none`); field values rejected by the `datetime` constructor, or a
chat date too early for `chat_date - timedelta(days=3)`, raise (`none`).
Otherwise the story deadline is 3 days before the chat date at
`STORY_DL_HOUR`, the ranking deadline 2 days before at
`RANKING_DL_HOUR`, the chat start at the given time on the chat date and
the chat end 2 hours later. The timezone argument only fixes the shared
offset and is not modelled. -/
def run (argv : List String) : Option Events :=
  match argv with
  | [] => none
  | _prog :: args =>
    match args with
    | [] => none
    | jcsacDate :: rest =>
      match parseDate jcsacDate with
      | none => none
      | some (y, mo, dy) =>
        let jcsacTime := rest.headD DEFAULT_TIME
        match parseTime jcsacTime with
        | none => none
        | some (h, mi, s) =>
          if dtValid y mo dy h mi s then
            let ord := toordinal y mo dy
            if 4 ≤ ord then
              some { story_dl := (ord - 3) * 86400 + STORY_DL_HOUR * 3600
                     ranking_dl := (ord - 2) * 86400 + RANKING_DL_HOUR * 3600
                     chat_start := ord * 86400 + (h * 3600 + mi * 60 + s)
                     chat_end := ord * 86400 + (h * 3600 + mi * 60 + s) + 7200 }
            else none
          else none

end JCSAC

namespace CEF

/-! ## Inversion lemmas for the diagram language -/

theorem matches_T_iff {s : String} {w : List String} :
    Matches (.T s) w ↔ w = [s] := by
  constructor
  · intro h; cases h; rfl
  · rintro rfl; exact .t s

theorem matches_seq_nil_iff {w : List String} :
    Matches (.Seq []) w ↔ w = [] := by
  constructor
  · intro h; cases h; rfl
  · rintro rfl; exact .seqNil

theorem matches_seq_cons_iff {d : DiagramItem} {ds : List DiagramItem}
    {w : List String} :
    Matches (.Seq (d :: ds)) w ↔
      ∃ u v, Matches d u ∧ Matches (.Seq ds) v ∧ w = u ++ v := by
  constructor
  · intro h
    cases h with
    | seqCons hu hv => exact ⟨_, _, hu, hv, rfl⟩
  · rintro ⟨u, v, hu, hv, rfl⟩; exact .seqCons hu hv

theorem matches_ch_iff {i : Nat} {ds : List DiagramItem} {w : List String} :
    Matches (.Ch i ds) w ↔ ∃ d ∈ ds, Matches d w := by
  constructor
  · intro h
    cases h with
    | ch hmem hd => exact ⟨_, hmem, hd⟩
  · rintro ⟨d, hmem, hd⟩; exact .ch hmem hd

theorem matches_opt_iff {d : DiagramItem} {b : Bool} {w : List String} :
    Matches (.Opt d b) w ↔ w = [] ∨ Matches d w := by
  constructor
  · intro h
    cases h with
    | optSkip => exact Or.inl rfl
    | optTake hd => exact Or.inr hd
  · rintro (rfl | hd)
    · exact .optSkip
    · exact .optTake hd

theorem matches_grp_iff {d : DiagramItem} {l : String} {w : List String} :
    Matches (.Grp d l) w ↔ Matches d w := by
  constructor
  · intro h; cases h with | grp hd => exact hd
  · exact .grp

theorem matches_oom_iff {d : DiagramItem} {s : Option DiagramItem}
    {w : List String} : Matches (.OOM d s) w ↔ Reps d s w := by
  constructor
  · intro h
    generalize he : DiagramItem.OOM d s = e at h
    induction h generalizing d s with
    | t _ => cases he
    | seqNil => cases he
    | seqCons _ _ _ _ => cases he
    | ch _ _ _ => cases he
    | oomOne hd =>
        injection he with h1 h2
        subst h1; subst h2
        exact .one hd
    | oomMoreNone hu hv _ ih =>
        injection he with h1 h2
        subst h1; subst h2
        exact .consN hu (ih rfl)
    | oomMoreSome hu hm hv _ _ ih =>
        injection he with h1 h2
        subst h1; subst h2
        exact .consS hu hm (ih rfl)
    | optSkip => cases he
    | optTake _ _ => cases he
    | grp _ _ => cases he
  · intro h
    induction h with
    | one hd => exact .oomOne hd
    | consN hu _ ih => exact .oomMoreNone hu ih
    | consS hu hm _ ih => exact .oomMoreSome hu hm ih

theorem SepBy.congr {P Q : List String → Prop} {sep : String}
    (h : ∀ v, P v ↔ Q v) {w : List String} (hw : SepBy P sep w) :
    SepBy Q sep w := by
  induction hw with
  | one hp => exact .one ((h _).mp hp)
  | cons hp _ ih => exact .cons ((h _).mp hp) ih

theorem reps_some_T_iff {d : DiagramItem} {b : String} {w : List String} :
    Reps d (some (.T b)) w ↔ SepBy (Matches d) b w := by
  constructor
  · intro h
    generalize hs : some (DiagramItem.T b) = s at h
    induction h with
    | one hd => exact .one hd
    | consN _ _ _ => cases hs
    | consS hu hm _ ih =>
        injection hs with hs'
        subst hs'
        cases hm
        have := SepBy.cons hu (ih rfl)
        simpa using this
  · intro h
    induction h with
    | one hd => exact .one hd
    | cons hu _ ih =>
        have := Reps.consS hu (Matches.t b) ih
        simpa using this

/-! ## Languages of the concrete diagrams -/

theorem lang_word {w : List String} :
    Matches word w ↔ w = ["WORD"] ∨ w = ["INT"] := by
  rw [word, matches_ch_iff]
  simp [matches_T_iff]

theorem lang_words {w : List String} :
    Matches words w ↔ w ≠ [] ∧ ∀ t ∈ w, t = "WORD" ∨ t = "INT" := by
  rw [words, matches_oom_iff]
  constructor
  · intro h
    generalize hs : (none : Option DiagramItem) = s at h
    induction h with
    | one hd =>
        rcases lang_word.mp hd with rfl | rfl <;> simp
    | consN hu _ ih =>
        refine ⟨by rcases lang_word.mp hu with rfl | rfl <;> simp, ?_⟩
        intro t ht
        rcases List.mem_append.mp ht with ht | ht
        · rcases lang_word.mp hu with rfl | rfl <;> simp_all
        · exact (ih rfl).2 t ht
    | consS _ _ _ _ => cases hs
  · rintro ⟨hne, hall⟩
    induction w with
    | nil => exact absurd rfl hne
    | cons t rest ih =>
        have ht : Matches word [t] := by
          rw [lang_word]
          rcases hall t (by simp) with rfl | rfl <;> simp
        rcases rest with _ | ⟨t2, rest2⟩
        · exact .one ht
        · have h2 := ih (by simp) (fun x hx => hall x (List.mem_cons_of_mem _ hx))
          exact (Reps.consN ht h2 : Reps word none ([t] ++ t2 :: rest2))

theorem lang_quantifier {w : List String} :
    Matches quantifier w ↔ w = ["*", "INT"] := by
  rw [quantifier, matches_seq_cons_iff]
  constructor
  · rintro ⟨u, v, hu, hv, rfl⟩
    rw [matches_seq_cons_iff] at hv
    obtain ⟨u2, v2, hu2, hv2, rfl⟩ := hv
    rw [matches_seq_nil_iff] at hv2
    subst hv2
    rw [matches_T_iff] at hu hu2
    subst hu; subst hu2; rfl
  · rintro rfl
    exact ⟨["*"], ["INT"], .t _,
      matches_seq_cons_iff.mpr ⟨["INT"], [], .t _, .seqNil, rfl⟩, rfl⟩

theorem lang_weight {w : List String} :
    Matches weight w ↔ w = ["^", "INT"] := by
  rw [weight, matches_seq_cons_iff]
  constructor
  · rintro ⟨u, v, hu, hv, rfl⟩
    rw [matches_seq_cons_iff] at hv
    obtain ⟨u2, v2, hu2, hv2, rfl⟩ := hv
    rw [matches_seq_nil_iff] at hv2
    subst hv2
    rw [matches_T_iff] at hu hu2
    subst hu; subst hu2; rfl
  · rintro rfl
    exact ⟨["^"], ["INT"], .t _,
      matches_seq_cons_iff.mpr ⟨["INT"], [], .t _, .seqNil, rfl⟩, rfl⟩

theorem lang_multipliers {w : List String} :
    Matches multipliers w ↔ w = [] ∨ specMultiplier w := by
  rw [multipliers, matches_opt_iff, matches_grp_iff, matches_ch_iff]
  unfold specMultiplier
  constructor
  · rintro (rfl | ⟨d, hd, hm⟩)
    · exact Or.inl rfl
    · refine Or.inr ?_
      simp only [List.mem_cons, List.not_mem_nil, or_false] at hd
      rcases hd with rfl | rfl | rfl | rfl
      · rw [matches_seq_cons_iff] at hm
        obtain ⟨u, v, hu, hv, rfl⟩ := hm
        rw [matches_seq_cons_iff] at hv
        obtain ⟨u2, v2, hu2, hv2, rfl⟩ := hv
        rw [matches_seq_nil_iff] at hv2
        subst hv2
        rw [matches_T_iff] at hu hu2
        subst hu; subst hu2
        exact Or.inl rfl
      · rw [matches_seq_cons_iff] at hm
        obtain ⟨u, v, hu, hv, rfl⟩ := hm
        rw [matches_seq_cons_iff] at hv
        obtain ⟨u2, v2, hu2, hv2, rfl⟩ := hv
        rw [matches_seq_nil_iff] at hv2
        subst hv2
        rw [matches_T_iff] at hu hu2
        subst hu; subst hu2
        exact Or.inr (Or.inl rfl)
      · rw [matches_T_iff] at hm
        exact Or.inr (Or.inr (Or.inl hm))
      · rw [matches_T_iff] at hm
        exact Or.inr (Or.inr (Or.inr hm))
  · rintro (rfl | rfl | rfl | rfl | rfl)
    · exact Or.inl rfl
    · refine Or.inr ⟨.Seq [.T "quantifier", .T "weight"], by simp, ?_⟩
      exact matches_seq_cons_iff.mpr ⟨["quantifier"], ["weight"], .t _,
        matches_seq_cons_iff.mpr ⟨["weight"], [], .t _, .seqNil, rfl⟩, rfl⟩
    · refine Or.inr ⟨.Seq [.T "weight", .T "quantifier"], by simp, ?_⟩
      exact matches_seq_cons_iff.mpr ⟨["weight"], ["quantifier"], .t _,
        matches_seq_cons_iff.mpr ⟨["quantifier"], [], .t _, .seqNil, rfl⟩, rfl⟩
    · exact Or.inr ⟨.T "quantifier", by simp, .t _⟩
    · exact Or.inr ⟨.T "weight", by simp, .t _⟩

theorem lang_equal_list {w : List String} :
    Matches equal_list w ↔ specTieGroup w := by
  rw [equal_list, matches_oom_iff, reps_some_T_iff]
  unfold specTieGroup
  constructor
  · exact fun h => SepBy.congr (fun v => matches_T_iff) h
  · exact fun h => SepBy.congr (fun v => matches_T_iff.symm) h

theorem lang_tie_list {w : List String} :
    Matches (.OOM equal_list (some (.T ">"))) w ↔ SepBy specTieGroup ">" w := by
  rw [matches_oom_iff, reps_some_T_iff]
  constructor
  · exact fun h => SepBy.congr (fun v => lang_equal_list) h
  · exact fun h => SepBy.congr (fun v => lang_equal_list.symm) h

theorem lang_choice_list {w : List String} :
    Matches choice_list w ↔ specChoiceList w := by
  rw [choice_list, matches_grp_iff, matches_ch_iff]
  unfold specChoiceList
  constructor
  · rintro ⟨d, hd, hm⟩
    simp only [List.mem_cons, List.not_mem_nil, or_false] at hd
    rcases hd with rfl | rfl
    · exact Or.inr (lang_tie_list.mp hm)
    · exact Or.inl (matches_T_iff.mp hm)
  · rintro (rfl | h)
    · exact ⟨.T "/EMPTY_RANKING/", by simp, .t _⟩
    · exact ⟨.OOM equal_list (some (.T ">")), by simp, lang_tie_list.mpr h⟩

theorem lang_tags {w : List String} :
    Matches tags w ↔ specTagSection w := by
  rw [tags, matches_oom_iff, reps_some_T_iff]
  unfold specTagSection
  constructor
  · exact fun h => SepBy.congr (fun v => matches_T_iff) h
  · exact fun h => SepBy.congr (fun v => matches_T_iff.symm) h

theorem lang_ranking {w : List String} :
    Matches ranking w ↔ specRanking w := by
  rw [ranking, matches_seq_cons_iff]
  unfold specRanking
  constructor
  · rintro ⟨u, v, hu, hv, rfl⟩
    rw [matches_seq_cons_iff] at hv
    obtain ⟨m, e, hm, he, rfl⟩ := hv
    rw [matches_seq_nil_iff] at he
    subst he
    exact ⟨u, m, lang_choice_list.mp hu, lang_multipliers.mp hm, by simp⟩
  · rintro ⟨c, m, hc, hm, rfl⟩
    exact ⟨c, m, lang_choice_list.mpr hc,
      matches_seq_cons_iff.mpr
        ⟨m, [], lang_multipliers.mpr hm, .seqNil, (List.append_nil m).symm⟩, rfl⟩

theorem lang_tag_head {t : List String} :
    Matches (.Opt (.Grp (.Seq [tags, .T "||"]) "tags") true) t ↔
      t = [] ∨ ∃ u, specTagSection u ∧ t = u ++ ["||"] := by
  rw [matches_opt_iff, matches_grp_iff, matches_seq_cons_iff]
  constructor
  · rintro (rfl | ⟨u, v, hu, hv, rfl⟩)
    · exact Or.inl rfl
    · rw [matches_seq_cons_iff] at hv
      obtain ⟨p, e, hp, he, rfl⟩ := hv
      rw [matches_seq_nil_iff] at he
      subst he
      rw [matches_T_iff] at hp
      subst hp
      exact Or.inr ⟨u, lang_tags.mp hu, by simp⟩
  · rintro (rfl | ⟨u, hu, rfl⟩)
    · exact Or.inl rfl
    · exact Or.inr ⟨u, ["||"], lang_tags.mpr hu,
        matches_seq_cons_iff.mpr ⟨["||"], [], .t _, .seqNil, rfl⟩, rfl⟩

theorem lang_line {w : List String} :
    Matches line w ↔ specLine w := by
  rw [line, matches_seq_cons_iff]
  unfold specLine
  constructor
  · rintro ⟨t, v, ht, hv, rfl⟩
    rw [matches_seq_cons_iff] at hv
    obtain ⟨r, e, hr, he, rfl⟩ := hv
    rw [matches_seq_nil_iff] at he
    subst he
    exact ⟨t, r, lang_tag_head.mp ht, lang_ranking.mp hr, by simp⟩
  · rintro ⟨t, r, ht, hr, rfl⟩
    exact ⟨t, r, lang_tag_head.mpr ht,
      matches_seq_cons_iff.mpr
        ⟨r, [], lang_ranking.mpr hr, .seqNil, (List.append_nil r).symm⟩, rfl⟩

/-! ## Token inventory of tie-group sequences -/

theorem specTieGroup_tokens {w : List String} (h : specTieGroup w) :
    ∀ t ∈ w, t = "candidate" ∨ t = "=" := by
  unfold specTieGroup at h
  induction h with
  | one hp => subst hp; simp
  | cons hp _ ih =>
      subst hp
      intro t ht
      simp only [List.cons_append, List.nil_append, List.mem_cons] at ht
      rcases ht with rfl | rfl | ht
      · exact Or.inl rfl
      · exact Or.inr rfl
      · exact ih t ht

theorem tie_list_tokens {w : List String} (h : SepBy specTieGroup ">" w) :
    ∀ t ∈ w, t = "candidate" ∨ t = "=" ∨ t = ">" := by
  induction h with
  | one hp =>
      intro t ht
      rcases specTieGroup_tokens hp t ht with h1 | h1
      · exact Or.inl h1
      · exact Or.inr (Or.inl h1)
  | cons hp _ ih =>
      intro t ht
      rcases List.mem_append.mp ht with ht | ht
      · rcases specTieGroup_tokens hp t ht with h1 | h1
        · exact Or.inl h1
        · exact Or.inr (Or.inl h1)
      · rcases List.mem_cons.mp ht with rfl | ht
        · exact Or.inr (Or.inr rfl)
        · exact ih t ht

end CEF

/-! ## Claim theorems for the diagram script -/

/-- C1: the language of CEF lines encoded by the diagram structure built
in `run()` equals the spec's `line` production: an optional tag section
(one or more tags separated by `","`, terminated by `"||"`) followed by a
ranking, whose choice list is either the literal `"/EMPTY_RANKING/"`
marker or one or more tie groups separated by `">"`, each tie group one
or more names separated by `"="`. -/
theorem cef_line_language_eq_spec :
    ∀ w : List String, CEF.Matches CEF.line w ↔ CEF.specLine w :=
  fun _ => CEF.lang_line

/-- C2: every sentence of the encoded `choice_list` grammar is either
exactly the `"/EMPTY_RANKING/"` marker — containing no `">"` token and
forming no tie-group sequence — or a non-empty sequence of tie groups in
which the marker never occurs; no sentence mixes the two. -/
theorem cef_choice_list_marker_exclusive :
    ∀ w : List String, CEF.Matches CEF.choice_list w →
      (w = ["/EMPTY_RANKING/"] ∧ ">" ∉ w ∧
        ¬ CEF.SepBy CEF.specTieGroup ">" w) ∨
      (CEF.SepBy CEF.specTieGroup ">" w ∧ "/EMPTY_RANKING/" ∉ w) := by
  intro w h
  rcases CEF.lang_choice_list.mp h with rfl | h2
  · refine Or.inl ⟨rfl, by simp, ?_⟩
    intro hs
    have := CEF.tie_list_tokens hs "/EMPTY_RANKING/" (by simp)
    simp at this
  · refine Or.inr ⟨h2, ?_⟩
    intro hm
    have := CEF.tie_list_tokens h2 "/EMPTY_RANKING/" hm
    simp at this

/-- Closed instance of C2 at the one-token marker sentence. -/
theorem cef_choice_list_marker_exclusive_witness :
    ((["/EMPTY_RANKING/"] : List String) = ["/EMPTY_RANKING/"] ∧
        ">" ∉ (["/EMPTY_RANKING/"] : List String) ∧
        ¬ CEF.SepBy CEF.specTieGroup ">" ["/EMPTY_RANKING/"]) ∨
      (CEF.SepBy CEF.specTieGroup ">" ["/EMPTY_RANKING/"] ∧
        "/EMPTY_RANKING/" ∉ (["/EMPTY_RANKING/"] : List String)) :=
  cef_choice_list_marker_exclusive ["/EMPTY_RANKING/"]
    (CEF.Matches.grp (CEF.Matches.ch (by simp) (CEF.Matches.t _)))

/-- C3: in the encoded multiplier grammar the multiplier is optional as a
whole; when present it is a quantifier (`"*"` then an Integer) and/or a
weight (`"^"` then an Integer) in either order, and no sentence of the
multiplier production repeats the quantifier or the weight. -/
theorem cef_multiplier_optional_order_free_once :
    (∀ w, CEF.Matches CEF.quantifier w ↔ w = ["*", "INT"]) ∧
    (∀ w, CEF.Matches CEF.weight w ↔ w = ["^", "INT"]) ∧
    (∀ w, CEF.Matches CEF.multipliers w ↔ (w = [] ∨ CEF.specMultiplier w)) ∧
    (∀ w, CEF.Matches CEF.multipliers w →
      w.count "quantifier" ≤ 1 ∧ w.count "weight" ≤ 1) := by
  refine ⟨fun _ => CEF.lang_quantifier, fun _ => CEF.lang_weight,
    fun _ => CEF.lang_multipliers, ?_⟩
  intro w h
  rcases CEF.lang_multipliers.mp h with rfl | h2
  · simp
  · rcases h2 with rfl | rfl | rfl | rfl <;> simp [List.count_cons]

/-- Closed instance of C3: the lone-quantifier sentence has each
component at most once. -/
theorem cef_multiplier_optional_order_free_once_witness :
    (["quantifier"] : List String).count "quantifier" ≤ 1 ∧
      (["quantifier"] : List String).count "weight" ≤ 1 :=
  cef_multiplier_optional_order_free_once.2.2.2 ["quantifier"]
    (CEF.Matches.optTake (CEF.Matches.grp
      (CEF.Matches.ch (by simp) (CEF.Matches.t "quantifier"))))

/-- C4: a name is one or more tokens drawn from `{WORD, INT}` (the
`words` diagram), and the candidate and tag productions are the very
same reference to that `words` production, so their languages coincide. -/
theorem cef_candidate_tag_same_words :
    CEF.candidate = CEF.tag ∧
    (∀ w, CEF.Matches CEF.words w ↔
      (w ≠ [] ∧ ∀ t ∈ w, t = "WORD" ∨ t = "INT")) ∧
    (∀ w, CEF.Matches CEF.candidate w ↔ CEF.Matches CEF.tag w) :=
  ⟨rfl, fun _ => CEF.lang_words, fun _ => Iff.rfl⟩

/-- C6: the encoded tag-section grammar imposes no uniqueness on tags:
some sentence of the tag production repeats the same tag name in two
positions of the comma-separated tag list. -/
theorem cef_duplicate_tags_permitted :
    ∃ w : List String,
      CEF.Matches (CEF.DiagramItem.T "tag") w ∧
      CEF.Matches CEF.tags (w ++ "," :: w) := by
  refine ⟨["tag"], CEF.Matches.t "tag", ?_⟩
  have h : CEF.Matches CEF.tags (["tag"] ++ [","] ++ ["tag"]) :=
    CEF.Matches.oomMoreSome (CEF.Matches.t "tag") (CEF.Matches.t ",")
      (CEF.Matches.oomOne (CEF.Matches.t "tag"))
  simpa using h

/-- C7: `run()` consumes no input: the diagram structures it constructs
are a constant function of the program text, identical across any two
runs whatever external input is available. -/
theorem cef_run_constant :
    ∀ env1 env2 : List String, CEF.run env1 = CEF.run env2 :=
  fun _ _ => rfl

namespace CEFCore

theorem countP_cons_ite (p : List String → Bool) (g : List String)
    (rest : List (List String)) :
    (g :: rest).countP p = rest.countP p + (if p g then 1 else 0) :=
  List.countP_cons p g rest

theorem firstCrossDup_isSome (c : String) : ∀ gs : List (List String),
    2 ≤ gs.countP (fun g => g.contains c) → (firstCrossDup gs).isSome := by
  intro gs
  induction gs with
  | nil => intro h; simp at h
  | cons g rest ih =>
      intro h
      unfold firstCrossDup
      rcases hfs : g.find? (fun n => rest.any (fun g2 => g2.contains n)) with _ | n
      · simp only [hfs]
        by_cases hg : g.contains c
        · by_cases hrest : 0 < rest.countP (fun g => g.contains c)
          · obtain ⟨g2, hg2, hg2c⟩ := List.countP_pos_iff.mp hrest
            have hc : c ∈ g := by simpa using hg
            have hnone := List.find?_eq_none.mp hfs c hc
            simp only [List.any_eq_true, not_exists, not_and] at hnone
            exact absurd (by simpa using hg2c) (by
              intro hcg2
              exact absurd hcg2 (by simpa using hnone g2 hg2))
          · rw [countP_cons_ite, if_pos hg] at h
            omega
        · rw [countP_cons_ite, if_neg hg] at h
          simpa using ih (by simpa using h)
      · simp [hfs]

theorem firstCrossDup_two_groups : ∀ (gs : List (List String)) (d : String),
    firstCrossDup gs = some d → 2 ≤ gs.countP (fun g => g.contains d) := by
  intro gs
  induction gs with
  | nil => intro d h; simp [firstCrossDup] at h
  | cons g rest ih =>
      intro d h
      unfold firstCrossDup at h
      rcases hfs : g.find? (fun n => rest.any (fun g2 => g2.contains n)) with _ | n
      · rw [hfs] at h
        have := ih d h
        rw [countP_cons_ite]
        omega
      · rw [hfs] at h
        have h' : n = d := by injection h
        have hmem := List.mem_of_find?_eq_some hfs
        have hpred := List.find?_some hfs
        simp only [List.any_eq_true] at hpred
        obtain ⟨g2, hg2, hdg2⟩ := hpred
        have h1 : 0 < rest.countP (fun g => g.contains n) :=
          List.countP_pos_iff.mpr ⟨g2, hg2, hdg2⟩
        have h2 : (g.contains n) = true := by simpa using hmem
        rw [← h', countP_cons_ite, if_pos h2]
        omega

end CEFCore

/-- C5: any parsed line whose ranking holds some candidate name in two
different tie groups is rejected by the semantic validator with a
`DuplicateCandidate` error naming a candidate that occurs in two
different tie groups, whatever the line's multiplier or tags. -/
theorem cef_validate_duplicate_candidate :
    ∀ (l : CEFCore.Line) (gs : List (List String)) (c : String),
      l.ranking = CEFCore.Ranking.groups gs →
      2 ≤ gs.countP (fun g => g.contains c) →
      ∃ d, CEFCore.validate l =
          Except.error (CEFCore.ValidationError.DuplicateCandidate d) ∧
        2 ≤ gs.countP (fun g => g.contains d) := by
  intro l gs c hrank h2
  obtain ⟨d, hd⟩ := Option.isSome_iff_exists.mp (CEFCore.firstCrossDup_isSome c gs h2)
  refine ⟨d, ?_, CEFCore.firstCrossDup_two_groups gs d hd⟩
  unfold CEFCore.validate
  rw [hrank]
  simp [CEFCore.rankingGroups, hd]

/-- Closed instance of C5: a two-group ranking repeating the candidate
`A` fails validation with a duplicate-candidate error. -/
theorem cef_validate_duplicate_candidate_witness :
    ∃ d, CEFCore.validate
        { tags := none,
          ranking := CEFCore.Ranking.groups [["A"], ["A"]],
          multiplier := { quantifier := none, weight := none } } =
        Except.error (CEFCore.ValidationError.DuplicateCandidate d) ∧
      2 ≤ ([["A"], ["A"]] : List (List String)).countP (fun g => g.contains d) :=
  cef_validate_duplicate_candidate
    { tags := none,
      ranking := CEFCore.Ranking.groups [["A"], ["A"]],
      multiplier := { quantifier := none, weight := none } }
    [["A"], ["A"]] "A" rfl (by decide)

namespace Shuffle

theorem get_cons_set_perm {α : Type} : ∀ (t : List α) (k : Nat)
    (hk : k < t.length) (a : α),
    (t.get ⟨k, hk⟩ :: t.set k a).Perm (a :: t) := by
  intro t
  induction t with
  | nil => intro k hk a; simp at hk
  | cons b t2 ih =>
      intro k hk a
      cases k with
      | zero => exact List.Perm.swap a b t2
      | succ m =>
          have hm : m < t2.length := by simpa using hk
          have s1 : (t2.get ⟨m, hm⟩ :: b :: t2.set m a).Perm
              (b :: t2.get ⟨m, hm⟩ :: t2.set m a) := List.Perm.swap b _ _
          have s2 : (b :: t2.get ⟨m, hm⟩ :: t2.set m a).Perm (b :: a :: t2) :=
            List.Perm.cons b (ih m hm a)
          have s3 : (b :: a :: t2).Perm (a :: b :: t2) := List.Perm.swap a b t2
          exact (s1.trans s2).trans s3

theorem set_set_get_perm {α : Type} : ∀ (l : List α) (i j : Nat)
    (hi : i < l.length) (hj : j < l.length),
    ((l.set i (l.get ⟨j, hj⟩)).set j (l.get ⟨i, hi⟩)).Perm l := by
  intro l
  induction l with
  | nil => intro i j hi _; simp at hi
  | cons a t ih =>
      intro i j hi hj
      cases i with
      | zero =>
        cases j with
        | zero => simp
        | succ k =>
            have hk : k < t.length := by simpa using hj
            exact get_cons_set_perm t k hk a
      | succ m =>
        cases j with
        | zero =>
            have hm : m < t.length := by simpa using hi
            exact get_cons_set_perm t m hm a
        | succ k =>
            have hm : m < t.length := by simpa using hi
            have hk : k < t.length := by simpa using hj
            exact List.Perm.cons a (ih m k hm hk)

theorem swapL_perm {α : Type} (l : List α) (i j : Nat) :
    (swapL l i j).Perm l := by
  unfold swapL
  split
  · split
    · exact set_set_get_perm l i j _ _
    · exact List.Perm.refl l
  · exact List.Perm.refl l

theorem shuffleFrom_perm {α : Type} (rand : Nat → Nat) : ∀ (n : Nat) (l : List α),
    (shuffleFrom rand n l).Perm l := by
  intro n
  induction n with
  | zero => intro l; exact List.Perm.refl l
  | succ i ih =>
      intro l
      unfold shuffleFrom
      exact (ih _).trans (swapL_perm l (i + 1) _)

end Shuffle

/-- C8: the lines written to standard output by `shuffle.py` are a
permutation of the lines read from the input file, whatever the random
source did: the output multiset equals the input multiset, so every line
occurs in the output exactly as often as in the input. -/
theorem shuffle_output_perm_input :
    ∀ (fileLines : List String) (rand : Nat → Nat),
      (Shuffle.shuffleModule fileLines rand).Perm fileLines ∧
      ∀ s : String, (Shuffle.shuffleModule fileLines rand).count s =
        fileLines.count s := by
  intro fileLines rand
  have hp : (Shuffle.shuffleModule fileLines rand).Perm fileLines :=
    Shuffle.shuffleFrom_perm rand _ fileLines
  exact ⟨hp, fun s => hp.count_eq s⟩

/-- C10: for every command line accepted by `jcsac_gen_cal.py`'s
`run()`, the generated events are strictly ordered — story submission
deadline before ranking deadline before chat start — and the chat end is
exactly the chat start plus 2 hours (7200 seconds). -/
theorem jcsac_events_strictly_ordered :
    ∀ (argv : List String) (ev : JCSAC.Events),
      JCSAC.run argv = some ev →
      ev.story_dl < ev.ranking_dl ∧ ev.ranking_dl < ev.chat_start ∧
        ev.chat_end = ev.chat_start + 7200 := by
  intro argv ev h
  rcases argv with _ | ⟨prog, args⟩
  · simp [JCSAC.run] at h
  rcases args with _ | ⟨jdate, rest⟩
  · simp [JCSAC.run] at h
  rcases hpd : JCSAC.parseDate jdate with _ | ⟨y, mo, dy⟩ <;>
    simp only [JCSAC.run, hpd] at h
  · cases h
  rcases rest with _ | ⟨jtime, rest2⟩
  · have hdt : JCSAC.parseTime (List.headD [] JCSAC.DEFAULT_TIME) =
        some (17, 0, 0) := rfl
    simp only [hdt] at h
    split at h
    · split at h
      · rw [Option.some_inj] at h
        subst h
        refine ⟨?_, ?_, rfl⟩ <;>
          simp only [JCSAC.STORY_DL_HOUR, JCSAC.RANKING_DL_HOUR] <;> omega
      · cases h
    · cases h
  · have hhd : List.headD (jtime :: rest2) JCSAC.DEFAULT_TIME = jtime := rfl
    rw [hhd] at h
    rcases hpt : JCSAC.parseTime jtime with _ | ⟨hh, mi, ss⟩ <;>
      simp only [hpt] at h
    · cases h
    split at h
    · split at h
      · rw [Option.some_inj] at h
        subst h
        refine ⟨?_, ?_, rfl⟩ <;>
          simp only [JCSAC.STORY_DL_HOUR, JCSAC.RANKING_DL_HOUR] <;> omega
      · cases h
    · cases h

/-- Closed instance of C10 at a concrete valid command line. -/
theorem jcsac_events_strictly_ordered_witness :
    (63898707600 : Nat) < 63898794000 ∧ (63898794000 : Nat) < 63898995600 ∧
      (63899002800 : Nat) = 63898995600 + 7200 :=
  jcsac_events_strictly_ordered ["jcsac_gen_cal.py", "2025-11-16"]
    { story_dl := 63898707600, ranking_dl := 63898794000,
      chat_start := 63898995600, chat_end := 63899002800 } (by rfl)

/-- C9: one call of `run()` writes exactly six SVG files, with exactly
the six expected names, in program order, and nothing else. -/
theorem cef_run_writes_exactly_six_files :
    ∀ env : List String,
      (CEF.run env).map CEF.OutCall.path =
        ["syndiag-cef-words.svg", "syndiag-cef-quantifier.svg",
         "syndiag-cef-weight.svg", "syndiag-cef-candidate.svg",
         "syndiag-cef-tag.svg", "syndiag-cef-line.svg"] ∧
      (CEF.run env).length = 6 :=
  fun _ => ⟨rfl, rfl⟩
